import Mathlib

/-!
Verification of the receipt-field extraction engine of the PRPT repository.

The authoritative source is src/src/services/ocr.js.  Its pure core maps the
newline-joined OCR text to a ReceiptFields record via six sub-extractors
(extractAmount, extractDate, extractCategory, extractMerchant,
extractInvoiceNumber, extractPaymentMethod) and assembles the result in
analyzeImage (lines 53-68).  We embed that core over List Char, with the
current system date abstracted as a parameter today.

Two transcription facts about the checked-in ocr.js matter below and are
embedded literally:

* The regex literals lost their backslash escapes: the amount pattern at
  line 96 reads (?:RS|INR|₹|TOTAL|AMOUNT|AMT)s*[:=]?s*(d{1,3}(?:[.,]d{3})*(?:[.,]d{2}))
  with flags gi, i.e. it matches the literal letters s and d, not whitespace
  and digits; likewise the price pattern at line 104, the date pattern at
  line 120, the invoice pattern at line 232 and the phone test at line 221.
  (The word-boundary escapes at line 104 survived, and earlier revisions of
  the same file kept in src/unnamed/part_000 carry the intended escaped
  patterns; the final revision in part_000, lines 388-425, is embedded here
  as the V2 functions for comparison.)
* The string literals at lines 49 and 195 contain a hard newline between the
  quotes where earlier revisions have an escaped newline; we embed them as
  the newline character, the only possible reading.

JS regexes are embedded as ordered backtracking matchers: a matcher returns
the list of possible remainders (or capture/remainder pairs) in the engine's
priority order - alternatives left to right, quantifiers greedy - and the
first element is the match the engine produces.  Global scanning advances
past each match exactly as lastIndex does.
-/

namespace PRPT

/-- The whitespace set of JS String.prototype.trim and of the \s class. -/
def isJsWs (c : Char) : Bool :=
  c == ' ' || c == '\t' || c == '\n' || c == '\r' || c == '\x0b' || c == '\x0c' ||
  c == ' ' || c == ' ' || c == ' ' || c == ' ' || c == ' ' ||
  c == ' ' || c == ' ' || c == ' ' || c == ' ' || c == ' ' ||
  c == ' ' || c == ' ' || c == ' ' || c == ' ' || c == ' ' ||
  c == ' ' || c == ' ' || c == '　' || c == '﻿'

/-- ASCII lower-casing, the fragment of String.prototype.toLowerCase the
keyword tables exercise. -/
def jsToLower (c : Char) : Char :=
  if 'A' ≤ c ∧ c ≤ 'Z' then Char.ofNat (c.toNat + 32) else c

/-- Case-insensitive character comparison, as under the regex i flag. -/
def ciEq (c d : Char) : Bool := jsToLower c == jsToLower d

/-- The regex word class [A-Za-z0-9_], used by the \b boundary. -/
def isWordChar (c : Char) : Bool :=
  decide (('a' ≤ c ∧ c ≤ 'z') ∨ ('A' ≤ c ∧ c ≤ 'Z') ∨ ('0' ≤ c ∧ c ≤ '9') ∨ c = '_')

/-- Decimal digit, the \d class of the intact regex revisions. -/
def isDigit09 (c : Char) : Bool := decide ('0' ≤ c ∧ c ≤ '9')

/-- The literal letter s under the i flag - what the mangled s* actually matches. -/
def isLitS (c : Char) : Bool := ciEq c 's'

/-- The literal letter d under the i flag - what the mangled d actually matches. -/
def isLitD (c : Char) : Bool := ciEq c 'd'

/-- The literal letter d, case-sensitively (patterns without the i flag). -/
def isLowD (c : Char) : Bool := c == 'd'

/-- The [.,] class. -/
def isSepChar (c : Char) : Bool := c == '.' || c == ','

/-- The [:=] class. -/
def isColonEq (c : Char) : Bool := c == ':' || c == '='

/-- The [:#=] class. -/
def isHashColonEq (c : Char) : Bool := c == ':' || c == '#' || c == '='

/-- The class of uppercase letters, digits, slash and dash, under the i flag. -/
def isInvCls (c : Char) : Bool :=
  decide (('A' ≤ c ∧ c ≤ 'Z') ∨ ('a' ≤ c ∧ c ≤ 'z') ∨ ('0' ≤ c ∧ c ≤ '9') ∨ c = '/' ∨ c = '-')

/-- Plain matcher: possible remainders after a match, in priority order. -/
abbrev RxM := List Char → List (List Char)

/-- Capturing matcher: possible consumed/remainder pairs, in priority order. -/
abbrev RxC := List Char → List (List Char × List Char)

def mEps : RxM := fun cs => [cs]

def mChar (p : Char → Bool) : RxM := fun cs =>
  match cs with
  | [] => []
  | c :: rest => if p c then [rest] else []

def mSeq (a b : RxM) : RxM := fun cs => (a cs).flatMap b

def mOpt (a : RxM) : RxM := fun cs => a cs ++ [cs]

/-- A fixed token, character by character under comparison p. -/
def mTok (p : Char → Char → Bool) : List Char → RxM
  | [] => mEps
  | t :: ts => mSeq (mChar (fun c => p c t)) (mTok p ts)

/-- Greedy star over a one-character class: longest munch first, then give back. -/
def mStarCh (p : Char → Bool) : RxM := fun cs =>
  let k := (cs.takeWhile p).length
  (List.range (k + 1)).map fun i => cs.drop (k - i)

def cChar (p : Char → Bool) : RxC := fun cs =>
  match cs with
  | [] => []
  | c :: rest => if p c then [([c], rest)] else []

def cSeq (a b : RxC) : RxC := fun cs =>
  (a cs).flatMap fun pr => (b pr.2).map fun qr => (pr.1 ++ qr.1, qr.2)

/-- Exactly n repetitions. -/
def cCount (a : RxC) : Nat → RxC
  | 0 => fun cs => [([], cs)]
  | n + 1 => cSeq a (cCount a n)

/-- Greedy counted repetition lo..hi: try hi first, down to lo. -/
def cRepRange (a : RxC) (lo hi : Nat) : RxC := fun cs =>
  (List.range (hi + 1 - lo)).flatMap fun i => cCount a (hi - i) cs

/-- Greedy star with fuel; every use below repeats a matcher that consumes at
least one character, so fuel equal to the input length is exact. -/
def cStarF (a : RxC) : Nat → RxC
  | 0 => fun cs => [([], cs)]
  | n + 1 => fun cs =>
    ((a cs).flatMap fun pr => (cStarF a n pr.2).map fun qr => (pr.1 ++ qr.1, qr.2)) ++ [([], cs)]

def mThenC (a : RxM) (b : RxC) : RxC := fun cs => (a cs).flatMap b

/-- Greedy unbounded repetition (at least lo) of a one-character class. -/
def cMunchAtLeast (p : Char → Bool) (lo : Nat) : RxC := fun cs =>
  let k := (cs.takeWhile p).length
  if k < lo then []
  else (List.range (k + 1 - lo)).map fun i => (cs.take (k - i), cs.drop (k - i))

/-- The amount cue alternation (?:RS|INR|₹|TOTAL|AMOUNT|AMT), i flag
(ocr.js line 96). -/
def amountCue : RxM := fun cs =>
  [("RS").data, ("INR").data, ("₹").data, ("TOTAL").data, ("AMOUNT").data,
   ("AMT").data].flatMap fun t => mTok ciEq t cs

/-- Cue followed by sP* [:=]? sP*.  In the checked-in file sP is the literal
letter s (the escape was lost); the intact revision has the \s class. -/
def cueSepM (sP : Char → Bool) : RxM :=
  mSeq amountCue (mSeq (mStarCh sP) (mSeq (mOpt (mChar isColonEq)) (mStarCh sP)))

/-- The captured number dP{1,3}(?:[.,]dP{3})*(?:[.,]dP{2}). -/
def amountGrp (dP : Char → Bool) : RxC := fun cs =>
  cSeq (cRepRange (cChar dP) 1 3)
    (cSeq (cStarF (cSeq (cChar isSepChar) (cCount (cChar dP) 3)) cs.length)
      (cSeq (cChar isSepChar) (cCount (cChar dP) 2))) cs

/-- One attempt of the cued amount regex at the current position. -/
def cuedAt (sP dP : Char → Bool) : RxC := mThenC (cueSepM sP) (amountGrp dP)

/-- matchAll for the cued amount regex: scan positions left to right, record
the capture of each match, continue after the matched text (fuel = length;
every match consumes at least one character). -/
def scanCuedF (sP dP : Char → Bool) : Nat → List Char → List (List Char)
  | 0, _ => []
  | _ + 1, [] => []
  | n + 1, c :: rest =>
    match (cuedAt sP dP (c :: rest)).head? with
    | some pr => pr.1 :: scanCuedF sP dP n (if pr.2.length < rest.length + 1 then pr.2 else rest)
    | none => scanCuedF sP dP n rest

def scanCued (sP dP : Char → Bool) (cs : List Char) : List (List Char) :=
  scanCuedF sP dP cs.length cs

/-- The replace of /,/g with the empty string. -/
def jsStripCommas (cs : List Char) : List Char := cs.filter fun c => c != ','

def digitsVal (ds : List Char) : Nat := ds.foldl (fun acc c => 10 * acc + (c.toNat - 48)) 0

/-- JS parseFloat on the strings this program feeds it (no exponent forms can
reach it: its inputs are matches of the price patterns with commas removed).
The value is kept exactly as a scaled integer, numerator over 10 ^ shift -
all the decimals this parser produces are exactly representable doubles, so
comparisons agree with JS.  none models NaN. -/
def jsParseFloat (cs : List Char) : Option (Int × Nat) :=
  let cs1 := cs.dropWhile isJsWs
  let sgned : Int × List Char :=
    match cs1 with
    | '+' :: r => (1, r)
    | '-' :: r => (-1, r)
    | _ => (1, cs1)
  let ip := sgned.2.takeWhile isDigit09
  let rest := sgned.2.drop ip.length
  let fp :=
    match rest with
    | '.' :: r => r.takeWhile isDigit09
    | _ => []
  if ip.isEmpty && fp.isEmpty then none
  else
    some (sgned.1 * ((digitsVal ip : Int) * (10 : Int) ^ fp.length + (digitsVal fp : Int)),
      fp.length)

/-- val > other in JS: false whenever either side is NaN; otherwise compare
the scaled integers over a common denominator. -/
def nanGt (a b : Option (Int × Nat)) : Bool :=
  match a, b with
  | some x, some y => decide (y.1 * (10 : Int) ^ x.2 < x.1 * (10 : Int) ^ y.2)
  | _, _ => false

/-- Core of the price token dP{1,5}[.,]dP{2} (boundaries handled at the call). -/
def priceCore (dP : Char → Bool) : RxC :=
  cSeq (cRepRange (cChar dP) 1 5) (cSeq (cChar isSepChar) (cCount (cChar dP) 2))

/-- One attempt of \b dP{1,5}[.,]dP{2} \b given the character before the
position.  Every character the pattern can start or end with is a word
character, so the boundaries reduce to: previous character absent or
non-word, and following character absent or non-word. -/
def priceAt (dP : Char → Bool) (prev : Option Char) (cs : List Char) : Option (List Char × List Char) :=
  let startOk :=
    match prev with
    | none => true
    | some c => !isWordChar c
  if startOk then
    ((priceCore dP cs).filter fun pr =>
      match pr.2 with
      | [] => true
      | c :: _ => !isWordChar c).head?
  else none

/-- Global scan for price tokens, tracking the previous character. -/
def scanPriceF (dP : Char → Bool) : Nat → Option Char → List Char → List (List Char)
  | 0, _, _ => []
  | _ + 1, _, [] => []
  | n + 1, prev, c :: rest =>
    match priceAt dP prev (c :: rest) with
    | some pr =>
      pr.1 :: scanPriceF dP n (some (pr.1.getLastD 'd'))
        (if pr.2.length < rest.length + 1 then pr.2 else rest)
    | none => scanPriceF dP n (some c) rest

def scanPrice (dP : Char → Bool) (cs : List Char) : List (List Char) :=
  scanPriceF dP cs.length none cs

/-- One reduce step of the fallback: keep curr when its parsed value strictly
exceeds the parsed value of the accumulator (ocr.js lines 107-111). -/
def amountFoldStep (mx curr : List Char) : List Char :=
  if nanGt (jsParseFloat (jsStripCommas curr)) (jsParseFloat (jsStripCommas mx)) then curr else mx

/-- extractAmount of ocr.js lines 94-116, with the mangled patterns embedded
as written: the cued pattern matches literal s/d letters, the price pattern
literal d.  The last cued capture wins, else the reduce over price tokens,
else empty. -/
def extractAmountL (text : List Char) : List Char :=
  match (scanCued isLitS isLitD text).getLast? with
  | some cap => jsStripCommas cap
  | none =>
    match scanPrice isLowD text with
    | [] => []
    | p :: ps => jsStripCommas (ps.foldl amountFoldStep p)

/-- Stable insertion of x after every element strictly greater under the
comparator parseFloat(b) - parseFloat(a) of part_000 line 403. -/
def insertDesc (x : List Char) : List (List Char) → List (List Char)
  | [] => [x]
  | y :: ys =>
    if nanGt (jsParseFloat x) (jsParseFloat y) then x :: y :: ys else y :: insertDesc x ys

/-- Stable sort descending by parsed value (Array.prototype.sort is stable). -/
def sortDescByVal (l : List (List Char)) : List (List Char) :=
  l.foldl (fun acc x => insertDesc x acc) []

/-- extractAmount of the last intact revision, src/unnamed/part_000 lines
388-404: same patterns with \s and \d intact, fallback maps the comma-strip
over the matches, sorts descending by value and takes the head. -/
def extractAmountV2 (text : List Char) : List Char :=
  match (scanCued isJsWs isDigit09 text).getLast? with
  | some cap => jsStripCommas cap
  | none =>
    let ps := (scanPrice isDigit09 text).map jsStripCommas
    match sortDescByVal ps with
    | [] => []
    | top :: _ => top

/-- The slash-or-dash separator class of the date pattern. -/
def isSlashDash (c : Char) : Bool := c == '/' || c == '-'

/-- First alternative (dP{1,2}) sep (dP{1,2}) sep (dP{2,4}) with its three captures. -/
def dateAlt1 (dP : Char → Bool) (cs : List Char) :
    List ((List Char × List Char × List Char) × List Char) :=
  (cRepRange (cChar dP) 1 2 cs).flatMap fun g1 =>
    (mChar isSlashDash g1.2).flatMap fun r2 =>
      (cRepRange (cChar dP) 1 2 r2).flatMap fun g2 =>
        (mChar isSlashDash g2.2).flatMap fun r4 =>
          (cRepRange (cChar dP) 2 4 r4).map fun g3 => ((g1.1, g2.1, g3.1), g3.2)

/-- Second alternative (dP{4}) sep (dP{1,2}) sep (dP{1,2}). -/
def dateAlt2 (dP : Char → Bool) (cs : List Char) :
    List ((List Char × List Char × List Char) × List Char) :=
  (cCount (cChar dP) 4 cs).flatMap fun g1 =>
    (mChar isSlashDash g1.2).flatMap fun r2 =>
      (cRepRange (cChar dP) 1 2 r2).flatMap fun g2 =>
        (mChar isSlashDash g2.2).flatMap fun r4 =>
          (cRepRange (cChar dP) 1 2 r4).map fun g3 => ((g1.1, g2.1, g3.1), g3.2)

/-- Which alternative matched, with its captures: inl = day-first groups 1-3,
inr = year-first groups 4-6 (the match[1] truthiness test of line 125). -/
abbrev DateGroups := (List Char × List Char × List Char) ⊕ (List Char × List Char × List Char)

def dateMatchAt (dP : Char → Bool) (cs : List Char) : List (DateGroups × List Char) :=
  (dateAlt1 dP cs).map (fun pr => (Sum.inl pr.1, pr.2)) ++
    (dateAlt2 dP cs).map (fun pr => (Sum.inr pr.1, pr.2))

/-- First match of the date pattern anywhere in the text (no g flag). -/
def findDateF (dP : Char → Bool) : List Char → Option DateGroups
  | [] => none
  | c :: rest =>
    match (dateMatchAt dP (c :: rest)).head? with
    | some pr => some pr.1
    | none => findDateF dP rest

/-- padStart(2, the zero character). -/
def padStart2 (cs : List Char) : List Char := List.replicate (2 - cs.length) '0' ++ cs

/-- Assembly of the returned date string (ocr.js lines 123-135): day-first
groups get 2-digit years prefixed with 20; both shapes are zero-padded and
joined with dashes as y-m-d. -/
def dateFromGroups : DateGroups → List Char
  | Sum.inl (dd, mm, yy) =>
    let y := if yy.length == 2 then '2' :: '0' :: yy else yy
    y ++ ('-' :: padStart2 mm) ++ ('-' :: padStart2 dd)
  | Sum.inr (yy, mm, dd) => yy ++ ('-' :: padStart2 mm) ++ ('-' :: padStart2 dd)

/-- extractDate of ocr.js lines 118-138, pattern embedded as written (it
matches the literal letter d, the escapes having been lost); none models the
null return. -/
def extractDateL (text : List Char) : Option (List Char) :=
  (findDateF isLowD text).map dateFromGroups

/-- extractDate of the intact revision, src/unnamed/part_000 lines 406-425
(\d digits). -/
def extractDateV2 (text : List Char) : Option (List Char) :=
  (findDateF isDigit09 text).map dateFromGroups

/-- Substring test String.prototype.includes, on character lists. -/
def leadsWith : List Char → List Char → Bool
  | [], _ => true
  | _ :: _, [] => false
  | c :: cs, h :: hs => c == h && leadsWith cs hs

def jsIncludes (hay needle : List Char) : Bool :=
  if leadsWith needle hay then true
  else
    match hay with
    | [] => false
    | _ :: t => jsIncludes t needle

/-- The category table of ocr.js lines 140-182, in insertion order. -/
def catTable : List (String × List String) :=
  [("FOOD", ["food", "restaurant", "cafe", "swiggy", "zomato", "eat", "lunch",
             "dinner", "burger", "pizza", "biryani"]),
   ("TRAVEL", ["uber", "ola", "taxi", "cab", "metro", "auto", "train", "flight",
               "bus", "fuel", "petrol", "diesel"]),
   ("GROCERY", ["grocery", "dmart", "market", "milk", "vegetables", "kirana",
                "mart", "store", "mandi"]),
   ("HOTEL", ["hotel", "lodge", "resort", "stay", "inn"]),
   ("ROOM STAY", ["rent", "pg", "hostel", "accommodation"])]

/-- extractCategory of ocr.js lines 140-191: first table entry with a keyword
contained in the lower-cased text, else Other. -/
def extractCategoryL (text : List Char) : String :=
  let tl := text.map jsToLower
  match catTable.find? (fun e => e.2.any fun kw => jsIncludes tl kw.data) with
  | some e => e.1
  | none => "Other"

/-- Line splitting on the newline join character. -/
def splitNl : List Char → List (List Char)
  | [] => [[]]
  | c :: cs =>
    match splitNl cs with
    | [] => [[c]]
    | l :: ls => if c = '\n' then [] :: l :: ls else (c :: l) :: ls

/-- String.prototype.trim. -/
def jsTrim (cs : List Char) : List Char :=
  ((cs.dropWhile isJsWs).reverse.dropWhile isJsWs).reverse

def commonMerchants : List String :=
  ["GPay", "PhonePe", "Paytm", "Amazon", "Flipkart", "Jio", "Zomato", "Swiggy",
   "Uber", "Ola", "D-Mart", "Reliance"]

/-- The trimmed lines longer than 2 characters (ocr.js lines 194-198). -/
def merchantLines (text : List Char) : List (List Char) :=
  ((splitNl text).map jsTrim).filter fun l => decide (2 < l.length)

/-- Keep a candidate line: mentions a known merchant (case-insensitively) and
does not contain ten consecutive d letters - the mangled /d{10}/ phone test
of line 221. -/
def merchantKeep (line : List Char) : Bool :=
  (commonMerchants.any fun m => jsIncludes (line.map jsToLower) (m.data.map jsToLower)) &&
    !(jsIncludes line (List.replicate 10 'd'))

/-- extractMerchant of ocr.js lines 193-228: among the first five kept lines
prefer a known-merchant line, else the first kept line, else empty. -/
def extractMerchantL (text : List Char) : List Char :=
  match merchantLines text with
  | [] => []
  | l0 :: _ =>
    match (merchantLines text).take 5 |>.find? merchantKeep with
    | some l => l
    | none => l0

/-- The invoice cue alternation, i flag (ocr.js line 232). -/
def invCue : RxM := fun cs =>
  [("INV").data, ("INVOICE").data, ("BILL").data, ("TXN").data,
   ("TRANSACTION").data, ("RECEIPT").data, ("REF").data].flatMap fun t => mTok ciEq t cs

/-- The optional (?:NO|ID|NUMBER) group. -/
def invOptNoid : RxM :=
  mOpt fun cs => [("NO").data, ("ID").data, ("NUMBER").data].flatMap fun t => mTok ciEq t cs

/-- One attempt of the invoice pattern
cue, then s*, optional NO or ID or NUMBER, s*, an optional colon hash or equals,
s*, then a greedy capture of 4 or more class characters, with the mangled literal
s and the i flag, capture greedy. -/
def invAt : RxC :=
  mThenC (mSeq invCue (mSeq (mStarCh isLitS) (mSeq invOptNoid
    (mSeq (mStarCh isLitS) (mSeq (mOpt (mChar isHashColonEq)) (mStarCh isLitS))))))
    (cMunchAtLeast isInvCls 4)

def findInvF : List Char → Option (List Char)
  | [] => none
  | c :: rest =>
    match (invAt (c :: rest)).head? with
    | some pr => some pr.1
    | none => findInvF rest

/-- extractInvoiceNumber of ocr.js lines 230-235. -/
def extractInvoiceNumberL (text : List Char) : List Char :=
  (findInvF text).getD []

/-- Does the lower-cased text mention upi, gpay or phonepe (line 239). -/
def upiCue (t : List Char) : Bool :=
  jsIncludes t ("upi").data || jsIncludes t ("gpay").data || jsIncludes t ("phonepe").data

/-- Does it mention cash (line 245). -/
def cashCue (t : List Char) : Bool := jsIncludes t ("cash").data

/-- Does it mention card, visa, mastercard or swipe (line 246). -/
def cardCue (t : List Char) : Bool :=
  jsIncludes t ("card").data || jsIncludes t ("visa").data ||
    jsIncludes t ("mastercard").data || jsIncludes t ("swipe").data

/-- extractPaymentMethod of ocr.js lines 237-254. -/
def extractPaymentMethodL (text : List Char) : String :=
  let t := text.map jsToLower
  if upiCue t then "UPI"
  else if cashCue t then "CASH"
  else if cardCue t then "CARD"
  else "UPI"

/-- The parser's output record (§3 of the spec; object literal of lines 60-69). -/
structure ReceiptFields where
  text : String
  amount : String
  merchant : String
  date : String
  category : String
  invoice_number : String
  payment_method : String
  hasFields : Bool

/-- Assembly of the result record from the full text and the already-computed
amount (ocr.js lines 53-68); today abstracts new Date().toISOString().split
at the T, the current system date.  The date is dateResult || today and
hasFields the truthiness of amount || merchant. -/
def assembleFields (today : String) (fullText : String) (amountL : List Char) : ReceiptFields :=
  let merchantL := extractMerchantL fullText.data
  let dateS : String :=
    match extractDateL fullText.data with
    | some d => if d.isEmpty then today else String.mk d
    | none => today
  { text := fullText
    amount := String.mk amountL
    merchant := String.mk merchantL
    date := dateS
    category := extractCategoryL fullText.data
    invoice_number := String.mk (extractInvoiceNumberL fullText.data)
    payment_method := extractPaymentMethodL fullText.data
    hasFields := !amountL.isEmpty || !merchantL.isEmpty }

/-- The pure parse: OCR text in, ReceiptFields out. -/
def analyzeImageText (today : String) (fullText : String) : ReceiptFields :=
  assembleFields today fullText (extractAmountL fullText.data)

/-- String.prototype.match with the g flag: null (none) when there is no
match, never an empty array. -/
def jsMatchOpt (l : List (List Char)) : Option (List (List Char)) :=
  if l.isEmpty then none else some l

/-- Array.prototype.reduce without an initial value: throws on an empty array. -/
def jsReduceNoInit (f : List Char → List Char → List Char) :
    List (List Char) → Except String (List Char)
  | [] => Except.error "TypeError: Reduce of empty array with no initial value"
  | x :: xs => Except.ok (xs.foldl f x)

/-- extractAmount with the two latent JS hazards explicit: the unguarded index
matches[matches.length - 1] and the initial-value-less reduce. -/
def extractAmountE (text : List Char) : Except String (List Char) :=
  let ms := scanCued isLitS isLitD text
  if 0 < ms.length then
    match ms.getLast? with
    | some cap => Except.ok (jsStripCommas cap)
    | none => Except.error "TypeError: undefined has no element 1"
  else
    match jsMatchOpt (scanPrice isLowD text) with
    | none => Except.ok []
    | some prices =>
      match jsReduceNoInit amountFoldStep prices with
      | Except.ok v => Except.ok (jsStripCommas v)
      | Except.error e => Except.error e

/-- The parse with every throwing JS operation made explicit; the remaining
sub-extractors perform none (only regex matching, slicing and comparisons). -/
def analyzeImageTextE (today : String) (fullText : String) : Except String ReceiptFields :=
  match extractAmountE fullText.data with
  | Except.ok a => Except.ok (assembleFields today fullText a)
  | Except.error e => Except.error e

/-- The normalization the spec claims for amount: digits and at most one
decimal separator, no thousands separators remaining. -/
def amountNormalized (s : String) : Bool :=
  (s.data.all fun c => isDigit09 c || isSepChar c) &&
    decide (s.data.count '.' + s.data.count ',' ≤ 1)

def daysInMonth (y m : Nat) : Nat :=
  if m == 2 then (if (y % 4 == 0 && y % 100 != 0) || y % 400 == 0 then 29 else 28)
  else if m == 4 || m == 6 || m == 9 || m == 11 then 30
  else 31

/-- A valid zero-padded YYYY-MM-DD calendar date string, as claimed of the
date field. -/
def isValidDateStr (s : String) : Bool :=
  match s.data with
  | [y1, y2, y3, y4, h1, m1, m2, h2, d1, d2] =>
    h1 == '-' && h2 == '-' &&
      ([y1, y2, y3, y4, m1, m2, d1, d2].all isDigit09) &&
      (let y := digitsVal [y1, y2, y3, y4]
       let m := digitsVal [m1, m2]
       let d := digitsVal [d1, d2]
       decide (1 ≤ m) && decide (m ≤ 12) && decide (1 ≤ d) && decide (d ≤ daysInMonth y m))
  | _ => false

end PRPT

namespace PRPT

/-! Basic facts used by the claim proofs. -/

theorem string_mk_ne_empty (l : List Char) : (String.mk l ≠ "") ↔ l ≠ [] := by
  constructor
  · intro h hl
    exact h (by rw [hl])
  · intro h hs
    have h2 : (String.mk l).data = ("" : String).data := by rw [hs]
    exact h h2

theorem getLast?_cons_ne_none {α : Type} (a : α) (l : List α) :
    (a :: l).getLast? ≠ none := by
  induction l generalizing a with
  | nil => simp
  | cons b t ih => simp only [List.getLast?_cons_cons]; exact ih b

theorem ws_lower {c : Char} (h : isJsWs c = true) : jsToLower c = c := by
  simp only [isJsWs, Bool.or_eq_true, beq_iff_eq, or_assoc] at h
  rcases h with h|h|h|h|h|h|h|h|h|h|h|h|h|h|h|h|h|h|h|h|h|h|h|h|h <;> subst h <;> decide

theorem ws_ne {c : Char} (h : isJsWs c = true) (d : Char) (hd : isJsWs d = false) : c ≠ d := by
  intro he
  subst he
  rw [h] at hd
  cases hd

theorem ws_ciEq {c : Char} (h : isJsWs c = true) (x : Char)
    (hx : isJsWs (jsToLower x) = false) : ciEq c x = false := by
  unfold ciEq
  rw [ws_lower h]
  cases hcx : c == jsToLower x
  · rfl
  · have hce := eq_of_beq hcx
    rw [hce] at h
    rw [h] at hx
    cases hx

theorem ws_isLitD {c : Char} (h : isJsWs c = true) : isLitD c = false :=
  ws_ciEq h 'd' (by decide)

theorem ws_isLowD {c : Char} (h : isJsWs c = true) : isLowD c = false := by
  unfold isLowD
  exact beq_eq_false_iff_ne.mpr (ws_ne h 'd' (by decide))

/-! Emptiness of the matchers on characters their patterns cannot start with. -/

theorem mChar_cons_nil {p : Char → Bool} {c : Char} {r : List Char} (h : p c = false) :
    mChar p (c :: r) = [] := by
  simp [mChar, h]

theorem mSeq_nil_left {a b : RxM} {cs : List Char} (h : a cs = []) : mSeq a b cs = [] := by
  simp [mSeq, h]

theorem cChar_cons_nil {p : Char → Bool} {c : Char} {r : List Char} (h : p c = false) :
    cChar p (c :: r) = [] := by
  simp [cChar, h]

theorem cSeq_nil_left {a b : RxC} {cs : List Char} (h : a cs = []) : cSeq a b cs = [] := by
  simp [cSeq, h]

theorem cCount_nil {a : RxC} {cs : List Char} (h : a cs = []) :
    ∀ {n : Nat}, n ≠ 0 → cCount a n cs = [] := by
  intro n hn
  cases n with
  | zero => exact absurd rfl hn
  | succ m => simp [cCount, cSeq, h]

theorem cRepRange_nil {a : RxC} {cs : List Char} (h : a cs = []) {lo hi : Nat}
    (hlo : 1 ≤ lo) : cRepRange a lo hi cs = [] := by
  unfold cRepRange
  apply List.flatMap_eq_nil_iff.mpr
  intro i hi2
  have hi3 := List.mem_range.mp hi2
  exact cCount_nil h (by omega)

theorem amountCue_ws {c : Char} (h : isJsWs c = true) (r : List Char) :
    amountCue (c :: r) = [] := by
  unfold amountCue
  apply List.flatMap_eq_nil_iff.mpr
  intro t ht
  fin_cases ht
  · exact mSeq_nil_left (mChar_cons_nil (ws_ciEq h 'R' (by decide)))
  · exact mSeq_nil_left (mChar_cons_nil (ws_ciEq h 'I' (by decide)))
  · exact mSeq_nil_left (mChar_cons_nil (ws_ciEq h '₹' (by decide)))
  · exact mSeq_nil_left (mChar_cons_nil (ws_ciEq h 'T' (by decide)))
  · exact mSeq_nil_left (mChar_cons_nil (ws_ciEq h 'A' (by decide)))
  · exact mSeq_nil_left (mChar_cons_nil (ws_ciEq h 'A' (by decide)))

theorem cuedAt_ws {sP dP : Char → Bool} {c : Char} (h : isJsWs c = true) (r : List Char) :
    cuedAt sP dP (c :: r) = [] := by
  simp [cuedAt, mThenC, cueSepM, mSeq, amountCue_ws h]

theorem scanCuedF_ws (sP dP : Char → Bool) :
    ∀ (n : Nat) (cs : List Char), (∀ x ∈ cs, isJsWs x = true) → scanCuedF sP dP n cs = [] := by
  intro n
  induction n with
  | zero => intro cs _; simp [scanCuedF]
  | succ m ih =>
    intro cs h
    cases cs with
    | nil => simp [scanCuedF]
    | cons c rest =>
      have hc := h c (by simp)
      simp only [scanCuedF, cuedAt_ws hc, List.head?_nil]
      exact ih rest fun x hx => h x (List.mem_cons_of_mem _ hx)

end PRPT

namespace PRPT

theorem priceCore_cons_nil {dP : Char → Bool} {c : Char} {r : List Char} (h : dP c = false) :
    priceCore dP (c :: r) = [] := by
  unfold priceCore
  exact cSeq_nil_left (cRepRange_nil (cChar_cons_nil h) (by omega))

theorem priceAt_none {dP : Char → Bool} {c : Char} {r : List Char} (h : dP c = false)
    (prev : Option Char) : priceAt dP prev (c :: r) = none := by
  unfold priceAt
  simp only [priceCore_cons_nil h, List.filter_nil, List.head?_nil]
  split <;> rfl

theorem scanPriceF_nomatch (dP : Char → Bool) :
    ∀ (n : Nat) (prev : Option Char) (cs : List Char), (∀ x ∈ cs, dP x = false) →
      scanPriceF dP n prev cs = [] := by
  intro n
  induction n with
  | zero => intro prev cs _; simp [scanPriceF]
  | succ m ih =>
    intro prev cs h
    cases cs with
    | nil => simp [scanPriceF]
    | cons c rest =>
      have hc := h c (by simp)
      simp only [scanPriceF, priceAt_none hc]
      exact ih _ rest fun x hx => h x (List.mem_cons_of_mem _ hx)

theorem dateAlt1_cons_nil {dP : Char → Bool} {c : Char} {r : List Char} (h : dP c = false) :
    dateAlt1 dP (c :: r) = [] := by
  unfold dateAlt1
  simp [cRepRange_nil (cChar_cons_nil h) (by omega : 1 ≤ 1)]

theorem dateAlt2_cons_nil {dP : Char → Bool} {c : Char} {r : List Char} (h : dP c = false) :
    dateAlt2 dP (c :: r) = [] := by
  unfold dateAlt2
  simp [cCount_nil (cChar_cons_nil h) (by omega : (4 : Nat) ≠ 0)]

theorem findDateF_nomatch {dP : Char → Bool} :
    ∀ (cs : List Char), (∀ x ∈ cs, dP x = false) → findDateF dP cs = none := by
  intro cs
  induction cs with
  | nil => intro _; simp [findDateF]
  | cons c rest ih =>
    intro h
    have hc := h c (by simp)
    simp only [findDateF, dateMatchAt, dateAlt1_cons_nil hc, dateAlt2_cons_nil hc,
      List.map_nil, List.nil_append, List.head?_nil]
    exact ih fun x hx => h x (List.mem_cons_of_mem _ hx)

theorem invCue_ws {c : Char} (h : isJsWs c = true) (r : List Char) : invCue (c :: r) = [] := by
  unfold invCue
  apply List.flatMap_eq_nil_iff.mpr
  intro t ht
  fin_cases ht
  · exact mSeq_nil_left (mChar_cons_nil (ws_ciEq h 'I' (by decide)))
  · exact mSeq_nil_left (mChar_cons_nil (ws_ciEq h 'I' (by decide)))
  · exact mSeq_nil_left (mChar_cons_nil (ws_ciEq h 'B' (by decide)))
  · exact mSeq_nil_left (mChar_cons_nil (ws_ciEq h 'T' (by decide)))
  · exact mSeq_nil_left (mChar_cons_nil (ws_ciEq h 'T' (by decide)))
  · exact mSeq_nil_left (mChar_cons_nil (ws_ciEq h 'R' (by decide)))
  · exact mSeq_nil_left (mChar_cons_nil (ws_ciEq h 'R' (by decide)))

theorem invAt_ws {c : Char} (h : isJsWs c = true) (r : List Char) : invAt (c :: r) = [] := by
  simp [invAt, mThenC, mSeq, invCue_ws h]

theorem findInvF_ws :
    ∀ (cs : List Char), (∀ x ∈ cs, isJsWs x = true) → findInvF cs = none := by
  intro cs
  induction cs with
  | nil => intro _; simp [findInvF]
  | cons c rest ih =>
    intro h
    have hc := h c (by simp)
    simp only [findInvF, invAt_ws hc, List.head?_nil]
    exact ih fun x hx => h x (List.mem_cons_of_mem _ hx)

end PRPT

namespace PRPT

/-! Lines of a whitespace-only text trim to nothing. -/

theorem splitNl_ws :
    ∀ {cs : List Char}, (∀ x ∈ cs, isJsWs x = true) →
      ∀ p ∈ splitNl cs, ∀ x ∈ p, isJsWs x = true := by
  intro cs
  induction cs with
  | nil =>
    intro _ p hp x hx
    simp [splitNl] at hp
    subst hp
    cases hx
  | cons a rest ih =>
    intro h p hp x hx
    have ha := h a (by simp)
    have hrest : ∀ y ∈ rest, isJsWs y = true := fun y hy => h y (List.mem_cons_of_mem _ hy)
    unfold splitNl at hp
    cases hsr : splitNl rest with
    | nil =>
      rw [hsr] at hp
      simp at hp
      subst hp
      simp at hx
      subst hx
      exact ha
    | cons l ls =>
      rw [hsr] at hp
      by_cases han : a = '\n'
      · simp only [if_pos han] at hp
        rcases List.mem_cons.mp hp with hpe | hp2
        · subst hpe; cases hx
        · exact ih hrest p (hsr ▸ hp2) x hx
      · simp only [if_neg han] at hp
        rcases List.mem_cons.mp hp with hpe | hp2
        · subst hpe
          rcases List.mem_cons.mp hx with hxe | hx2
          · subst hxe; exact ha
          · exact ih hrest l (hsr ▸ List.mem_cons_self l ls) x hx2
        · exact ih hrest p (hsr ▸ List.mem_cons_of_mem _ hp2) x hx

theorem jsTrim_ws_nil {p : List Char} (h : ∀ x ∈ p, isJsWs x = true) : jsTrim p = [] := by
  unfold jsTrim
  rw [List.dropWhile_eq_nil_iff.mpr h]
  rfl

theorem merchantLines_ws {cs : List Char} (h : ∀ x ∈ cs, isJsWs x = true) :
    merchantLines cs = [] := by
  unfold merchantLines
  apply List.filter_eq_nil_iff.mpr
  intro l hl
  obtain ⟨p, hp, hpe⟩ := List.mem_map.mp hl
  subst hpe
  rw [jsTrim_ws_nil (splitNl_ws h p hp)]
  simp

theorem merchant_ws {cs : List Char} (h : ∀ x ∈ cs, isJsWs x = true) :
    extractMerchantL cs = [] := by
  unfold extractMerchantL
  simp [merchantLines_ws h]

/-! Substring containment transfers character membership. -/

theorem leadsWith_sub :
    ∀ {nd hay : List Char}, leadsWith nd hay = true → ∀ {x : Char}, x ∈ nd → x ∈ hay := by
  intro nd
  induction nd with
  | nil =>
    intro hay _ x hx
    cases hx
  | cons c cs ih =>
    intro hay h x hx
    cases hay with
    | nil => simp [leadsWith] at h
    | cons a as =>
      simp only [leadsWith, Bool.and_eq_true, beq_iff_eq] at h
      obtain ⟨hca, h2⟩ := h
      subst hca
      rcases List.mem_cons.mp hx with hxe | hx2
      · subst hxe; exact List.mem_cons_self _ _
      · exact List.mem_cons_of_mem _ (ih h2 hx2)

theorem jsIncludes_sub :
    ∀ {hay nd : List Char}, jsIncludes hay nd = true → ∀ {x : Char}, x ∈ nd → x ∈ hay := by
  intro hay
  induction hay with
  | nil =>
    intro nd h x hx
    cases nd with
    | nil => cases hx
    | cons c cs => simp [jsIncludes, leadsWith] at h
  | cons a as ih =>
    intro nd h x hx
    unfold jsIncludes at h
    by_cases hl : leadsWith nd (a :: as) = true
    · exact leadsWith_sub hl hx
    · rw [if_neg hl] at h
      exact List.mem_cons_of_mem _ (ih h hx)

theorem ws_no_includes {hay : List Char} (ht : ∀ x ∈ hay, isJsWs x = true)
    (nd : List Char) (hnd : nd.any (fun c => !isJsWs c) = true) :
    jsIncludes hay nd = false := by
  cases hj : jsIncludes hay nd
  · rfl
  · obtain ⟨c, hc, hcw⟩ := List.any_eq_true.mp hnd
    have hmem := jsIncludes_sub hj hc
    have hw := ht c hmem
    rw [hw] at hcw
    cases hcw

theorem map_lower_ws {cs : List Char} (h : ∀ x ∈ cs, isJsWs x = true) :
    ∀ x ∈ cs.map jsToLower, isJsWs x = true := by
  intro x hx
  obtain ⟨y, hy, hye⟩ := List.mem_map.mp hx
  subst hye
  rw [ws_lower (h y hy)]
  exact h y hy

end PRPT

namespace PRPT

/-! Each sub-extractor degrades to its default on whitespace-only text. -/

theorem amount_ws {cs : List Char} (h : ∀ x ∈ cs, isJsWs x = true) :
    extractAmountL cs = [] := by
  unfold extractAmountL
  have h1 : scanCued isLitS isLitD cs = [] := scanCuedF_ws _ _ _ _ h
  have h2 : scanPrice isLowD cs = [] :=
    scanPriceF_nomatch _ _ _ _ fun x hx => ws_isLowD (h x hx)
  rw [h1, h2]
  rfl

theorem date_ws {cs : List Char} (h : ∀ x ∈ cs, isJsWs x = true) :
    extractDateL cs = none := by
  unfold extractDateL
  rw [findDateF_nomatch cs fun x hx => ws_isLowD (h x hx)]
  rfl

theorem invoice_ws {cs : List Char} (h : ∀ x ∈ cs, isJsWs x = true) :
    extractInvoiceNumberL cs = [] := by
  unfold extractInvoiceNumberL
  rw [findInvF_ws cs h]
  rfl

theorem category_ws {cs : List Char} (h : ∀ x ∈ cs, isJsWs x = true) :
    extractCategoryL cs = "Other" := by
  have htl := map_lower_ws h
  have master : ∀ e ∈ catTable, ∀ kw ∈ e.2, (kw.data).any (fun c => !isJsWs c) = true := by
    decide
  have hfind :
      catTable.find? (fun e => e.2.any fun kw => jsIncludes (cs.map jsToLower) kw.data) = none := by
    apply List.find?_eq_none.mpr
    intro e he
    simp only [Bool.not_eq_true]
    apply List.any_eq_false.mpr
    intro kw hkw
    simp [ws_no_includes htl (kw.data) (master e he kw hkw)]
  simp only [extractCategoryL]
  rw [hfind]

theorem payment_ws {cs : List Char} (h : ∀ x ∈ cs, isJsWs x = true) :
    extractPaymentMethodL cs = "UPI" := by
  have htl := map_lower_ws h
  have h1 : upiCue (cs.map jsToLower) = false := by
    unfold upiCue
    rw [ws_no_includes htl (("upi").data) (by decide),
      ws_no_includes htl (("gpay").data) (by decide),
      ws_no_includes htl (("phonepe").data) (by decide)]
    rfl
  have h2 : cashCue (cs.map jsToLower) = false := by
    unfold cashCue
    rw [ws_no_includes htl (("cash").data) (by decide)]
  have h3 : cardCue (cs.map jsToLower) = false := by
    unfold cardCue
    rw [ws_no_includes htl (("card").data) (by decide),
      ws_no_includes htl (("visa").data) (by decide),
      ws_no_includes htl (("mastercard").data) (by decide),
      ws_no_includes htl (("swipe").data) (by decide)]
    rfl
  simp [extractPaymentMethodL, h1, h2, h3]

end PRPT

namespace PRPT

theorem mk_nil_eq_empty : String.mk [] = "" := rfl

theorem merchantLines_mem_len {t : List Char} {l : List Char} (hl : l ∈ merchantLines t) :
    2 < l.length := by
  unfold merchantLines at hl
  have h2 := (List.mem_filter.mp hl).2
  simpa using h2

theorem merchant_nonempty {t : List Char}
    (h : ∃ l ∈ splitNl t, 3 ≤ (jsTrim l).length) : extractMerchantL t ≠ [] := by
  obtain ⟨l, hl, hlen⟩ := h
  have hmem : jsTrim l ∈ merchantLines t := by
    unfold merchantLines
    apply List.mem_filter.mpr
    refine ⟨List.mem_map_of_mem _ hl, ?_⟩
    simp only [decide_eq_true_eq]
    omega
  have hne : merchantLines t ≠ [] := List.ne_nil_of_mem hmem
  unfold extractMerchantL
  cases hml : merchantLines t with
  | nil => exact absurd hml hne
  | cons l0 rest =>
    cases hf : ((l0 :: rest).take 5).find? merchantKeep with
    | some l2 =>
      have hmem2 : l2 ∈ (l0 :: rest).take 5 := List.mem_of_find?_eq_some hf
      have hmem3 : l2 ∈ merchantLines t := hml ▸ List.mem_of_mem_take hmem2
      have hlen2 := merchantLines_mem_len hmem3
      simp only [hf]
      intro hcon
      rw [hcon] at hlen2
      simp at hlen2
    | none =>
      have hmem3 : l0 ∈ merchantLines t := hml ▸ List.mem_cons_self l0 rest
      have hlen2 := merchantLines_mem_len hmem3
      simp only [hf]
      intro hcon
      rw [hcon] at hlen2
      simp at hlen2

theorem extractAmountE_ok (t : List Char) :
    extractAmountE t = Except.ok (extractAmountL t) := by
  unfold extractAmountE extractAmountL
  cases hm : scanCued isLitS isLitD t with
  | nil =>
    simp only [List.length_nil, Nat.lt_irrefl, if_false, List.getLast?_nil]
    cases hp : scanPrice isLowD t with
    | nil => simp [jsMatchOpt]
    | cons p ps => simp [jsMatchOpt, jsReduceNoInit]
  | cons a l =>
    have hlen : 0 < (a :: l).length := by simp
    simp only [if_pos hlen]
    cases hg : (a :: l).getLast? with
    | none => exact absurd hg (getLast?_cons_ne_none a l)
    | some cap => rfl

end PRPT

namespace PRPT

/-- C5: for every empty or whitespace-only input string, parse returns the
blank result: hasFields false, amount, merchant and invoice_number empty,
category Other, payment_method UPI, and date equal to the current date; no
error is involved (the function is total). -/
theorem claim5_blank_on_whitespace (today s : String)
    (h : ∀ c ∈ s.data, isJsWs c = true) :
    (analyzeImageText today s).hasFields = false ∧
    (analyzeImageText today s).amount = "" ∧
    (analyzeImageText today s).merchant = "" ∧
    (analyzeImageText today s).invoice_number = "" ∧
    (analyzeImageText today s).category = "Other" ∧
    (analyzeImageText today s).payment_method = "UPI" ∧
    (analyzeImageText today s).date = today := by
  have hA := amount_ws h
  have hM := merchant_ws h
  have hD := date_ws h
  have hC := category_ws h
  have hI := invoice_ws h
  have hP := payment_ws h
  simp [analyzeImageText, assembleFields, hA, hM, hD, hC, hI, hP, mk_nil_eq_empty]

/-- Witness for C5 at a concrete whitespace-only input. -/
theorem claim5_witness :
    (analyzeImageText ("2026-10-11") (" \t\n ")).hasFields = false ∧
    (analyzeImageText ("2026-10-11") (" \t\n ")).amount = "" ∧
    (analyzeImageText ("2026-10-11") (" \t\n ")).merchant = "" ∧
    (analyzeImageText ("2026-10-11") (" \t\n ")).invoice_number = "" ∧
    (analyzeImageText ("2026-10-11") (" \t\n ")).category = "Other" ∧
    (analyzeImageText ("2026-10-11") (" \t\n ")).payment_method = "UPI" ∧
    (analyzeImageText ("2026-10-11") (" \t\n ")).date = "2026-10-11" :=
  claim5_blank_on_whitespace ("2026-10-11") (" \t\n ") (by decide)

/-- C7: for every input, hasFields equals amount nonempty or merchant
nonempty, computed from the same result record. -/
theorem claim7_hasFields_rule (today s : String) :
    (analyzeImageText today s).hasFields = true ↔
      ((analyzeImageText today s).amount ≠ "" ∨ (analyzeImageText today s).merchant ≠ "") := by
  unfold analyzeImageText assembleFields
  simp only [Bool.or_eq_true, Bool.not_eq_true', string_mk_ne_empty]
  rw [List.isEmpty_eq_false, List.isEmpty_eq_false]

/-- C6: the parse pipeline with every potentially throwing JS operation made
explicit always returns ok, equal to the total parse: no string input can
raise. -/
theorem claim6_no_exceptions (today s : String) :
    analyzeImageTextE today s = Except.ok (analyzeImageText today s) := by
  unfold analyzeImageTextE analyzeImageText
  rw [extractAmountE_ok]

/-- C10: any input with a line whose trimmed length is at least 3 yields a
non-empty merchant (the extractor falls back to the first such line), hence
hasFields is true whatever the text looks like. -/
theorem claim10_merchant_fallback (today s : String)
    (h : ∃ l ∈ splitNl s.data, 3 ≤ (jsTrim l).length) :
    (analyzeImageText today s).merchant ≠ "" ∧ (analyzeImageText today s).hasFields = true := by
  have hm := merchant_nonempty h
  constructor
  · exact (string_mk_ne_empty _).mpr hm
  · have hie : (extractMerchantL s.data).isEmpty = false := by
      rw [List.isEmpty_eq_false]
      exact hm
    unfold analyzeImageText assembleFields
    simp [hie]

/-- Witness for C10 at a concrete two-line receipt text. -/
theorem claim10_witness :
    (analyzeImageText ("2026-10-11") ("Starbucks Coffee\n45.00")).merchant ≠ "" ∧
    (analyzeImageText ("2026-10-11") ("Starbucks Coffee\n45.00")).hasFields = true :=
  claim10_merchant_fallback ("2026-10-11") ("Starbucks Coffee\n45.00") (by decide)

end PRPT

namespace PRPT

/-- C4 (amended): the date field is never empty, and when the date pattern
finds nothing the supplied current date is substituted.  (The claimed
calendar validity does not hold, see the counterexample.) -/
theorem claim4_date_never_empty (today s : String) (h : today ≠ "") :
    (analyzeImageText today s).date ≠ "" ∧
      (extractDateL s.data = none → (analyzeImageText today s).date = today) := by
  unfold analyzeImageText assembleFields
  cases hd : extractDateL s.data with
  | none =>
    constructor
    · simp [hd, h]
    · intro _
      simp [hd]
  | some d =>
    constructor
    · cases hde : d.isEmpty with
      | true => simp [hd, hde, h]
      | false =>
        simp [hd, hde, string_mk_ne_empty]
        exact List.isEmpty_eq_false.mp hde
    · intro hn
      simp at hn

/-- Witness for C4 at a concrete dateless input. -/
theorem claim4_witness :
    (analyzeImageText ("2026-10-11") ("no date present")).date ≠ "" ∧
      (extractDateL (("no date present").data) = none →
        (analyzeImageText ("2026-10-11") ("no date present")).date = "2026-10-11") :=
  claim4_date_never_empty ("2026-10-11") ("no date present") (by decide)

/-- C4 counterexample: the claim as stated is false - on the input dd/dd/dddd
the (escape-mangled) date pattern matches the literal d letters and the date
field of the result is dddd-dd-dd, which is not a valid YYYY-MM-DD calendar
date, even though the supplied current date is valid. -/
theorem claim4_counterexample :
    (analyzeImageText ("2026-10-11") ("dd/dd/dddd")).date = "dddd-dd-dd" ∧
      isValidDateStr ("dddd-dd-dd") = false ∧ isValidDateStr ("2026-10-11") = true := by
  decide

/-- C8: payment_method is computed by fixed priority over the lower-cased
text - the upi group, then cash, then the card group, with UPI as default -
so it is always one of UPI, CASH and CARD, and keyword-free text gives UPI. -/
theorem claim8_payment_priority (today s : String) :
    (analyzeImageText today s).payment_method = extractPaymentMethodL s.data ∧
    (extractPaymentMethodL s.data = "UPI" ∨ extractPaymentMethodL s.data = "CASH" ∨
      extractPaymentMethodL s.data = "CARD") ∧
    (upiCue (s.data.map jsToLower) = true → extractPaymentMethodL s.data = "UPI") ∧
    (upiCue (s.data.map jsToLower) = false → cashCue (s.data.map jsToLower) = true →
      extractPaymentMethodL s.data = "CASH") ∧
    (upiCue (s.data.map jsToLower) = false → cashCue (s.data.map jsToLower) = false →
      cardCue (s.data.map jsToLower) = true → extractPaymentMethodL s.data = "CARD") ∧
    (upiCue (s.data.map jsToLower) = false → cashCue (s.data.map jsToLower) = false →
      cardCue (s.data.map jsToLower) = false → extractPaymentMethodL s.data = "UPI") := by
  cases hu : upiCue (s.data.map jsToLower) <;>
    cases hc : cashCue (s.data.map jsToLower) <;>
      cases hcd : cardCue (s.data.map jsToLower) <;>
        exact ⟨rfl, by simp [extractPaymentMethodL, hu, hc, hcd],
          by simp [extractPaymentMethodL, hu, hc, hcd],
          by simp [extractPaymentMethodL, hu, hc, hcd],
          by simp [extractPaymentMethodL, hu, hc, hcd],
          by simp [extractPaymentMethodL, hu, hc, hcd]⟩

/-- Witness for C8: keyword-free text defaults to UPI, text mentioning cash
gives CASH. -/
theorem claim8_witness :
    extractPaymentMethodL (("hello world").data) = "UPI" ∧
      extractPaymentMethodL (("paid by cash").data) = "CASH" := by
  constructor
  · exact (claim8_payment_priority ("x") ("hello world")).2.2.2.2.2
      (by decide) (by decide) (by decide)
  · exact (claim8_payment_priority ("x") ("paid by cash")).2.2.2.1 (by decide) (by decide)

/-- C9 (amended): the amount field never contains a comma - the matched token
has every comma removed; dot thousands separators are not removed (see the
counterexample), so uniqueness of the separator does not hold. -/
theorem claim9_amount_has_no_comma (today s : String) :
    (',' : Char) ∉ ((analyzeImageText today s).amount).data := by
  show (',' : Char) ∉ extractAmountL s.data
  unfold extractAmountL jsStripCommas
  cases (scanCued isLitS isLitD s.data).getLast? with
  | some cap =>
    intro hmem
    have h2 := (List.mem_filter.mp hmem).2
    simp at h2
  | none =>
    cases scanPrice isLowD s.data with
    | nil => simp
    | cons p ps =>
      intro hmem
      have h2 := (List.mem_filter.mp hmem).2
      simp at h2

/-- C9 counterexample: the claim as stated is false - on the input RSd.ddd.dd
the cued pattern (matching literal d letters) captures d.ddd.dd, and the
amount field keeps both dots and its non-digit letters: it is non-empty and
not a normalized decimal string. -/
theorem claim9_counterexample :
    (analyzeImageText ("2026-10-11") ("RSd.ddd.dd")).amount = "d.ddd.dd" ∧
      amountNormalized ("d.ddd.dd") = false ∧ ("d.ddd.dd" : String) ≠ "" := by
  decide

end PRPT

namespace PRPT

/-- C1 (code bug evaluation): on the claim's own example the checked-in
extractAmount returns the empty string - its escape-mangled cued pattern
matches literal s and d letters, never digits - while the intact revision of
the same function (part_000 lines 388-404) returns 1250.00 exactly as the
claim states. -/
theorem claim1_cued_amount_divergence :
    (analyzeImageText ("2026-10-11") ("Subtotal 100.00\nTOTAL: 1,250.00")).amount = "" ∧
      extractAmountV2 (("Subtotal 100.00\nTOTAL: 1,250.00").data) = ("1250.00").data := by
  decide

/-- C2 (code bug evaluation): on the claim's own example - bare tokens 45.00
and 120.50, no cue tokens - the checked-in extractAmount returns the empty
string (its price pattern matches literal d letters), while the intact
revision returns 120.50, the numerically largest bare token, as the claim
states. -/
theorem claim2_bare_amount_divergence :
    (analyzeImageText ("2026-10-11") ("45.00 120.50")).amount = "" ∧
      extractAmountV2 (("45.00 120.50").data) = ("120.50").data := by
  decide

/-- C3 (code bug evaluation): on the claim's examples the checked-in
extractDate finds no match (its pattern matches the literal letter d, not
digits), so the date falls back to the current date; the intact revision
returns 2024-03-07 for both inputs, as the claim states. -/
theorem claim3_date_divergence :
    extractDateL (("Date: 07/03/2024").data) = none ∧
      (analyzeImageText ("2026-10-11") ("Date: 07/03/2024")).date = "2026-10-11" ∧
      extractDateV2 (("Date: 07/03/2024").data) = some (("2024-03-07").data) ∧
      extractDateV2 (("2024-03-07").data) = some (("2024-03-07").data) := by
  decide

end PRPT
